import Mathlib

/-!
Verification of the golem resource-storage core: a shallow embedding of the
chunk map, Merkle tree, uniform view builder, generic storage, storage
iterator and storage map, with theorems settling the specification claims.

Conventions used throughout the embedding:
* Rust `usize` values are modelled as `Nat`; a subtraction that would
  underflow (a panic in debug builds) is modelled by returning `none`.
* Fallible Rust functions returning `Result` are modelled as `Except`;
  a panic (`unwrap`, out-of-bounds slice or `BitVec::set`,
  `clone_from_slice` length mismatch) is modelled as an outer `Option`
  being `none`.
* Byte buffers are `List Nat`.  Where a buffer's contents influence no
  recorded verdict (storage reads feeding counts and length checks) the
  buffer is materialised as zeros; its length is always exact.
-/

namespace Golem

/-- `div_upper` from src/src/storage/map/chunk.rs: `(value + by - 1) / by`. -/
def div_upper (value b : Nat) : Nat := (value + b - 1) / b

/-- `ChunkMap::MIN_PIECE_SIZE`. -/
def MIN_PIECE_SIZE : Nat := 16384

/-- `ChunkMap::MAX_PIECE_SIZE = 1 << 10`. -/
def MAX_PIECE_SIZE : Nat := 1 <<< 10

/-- `ChunkMap::piece_size`: for positive `total_size` the value
`1 << (bits - leading_zeros - 1)` is the largest power of two not exceeding
`total_size`, i.e. `2 ^ log2 total_size`; then `max(min(value, MAX), MIN)`. -/
def piece_size_of (total_size : Nat) : Nat :=
  let value := if 0 < total_size then 2 ^ Nat.log2 total_size else 0
  max (min value MAX_PIECE_SIZE) MIN_PIECE_SIZE

/-- `ChunkMap` (src/src/storage/map/chunk.rs); the `BitVec` bitmap is a list
of booleans, one per chunk. -/
structure ChunkMap where
  bitmap : List Bool
  chunk_size : Nat
  chunk_count : Nat
  piece_size : Nat
  piece_count : Nat
  chunks_in_piece : Nat
deriving DecidableEq

/-- `ChunkMap::new`; `chunk_size = piece_size >> 2`. -/
def ChunkMap.new (total_size : Nat) (all_set : Bool) : ChunkMap :=
  let ps := piece_size_of total_size
  let cs := ps / 4
  let pc := div_upper total_size ps
  let cip := div_upper ps cs
  let cc := pc * cip
  ⟨List.replicate cc all_set, cs, cc, ps, pc, cip⟩

/-- `Level` (src/merkle-tree/src/level.rs); the source's `end` field is named
`stop` (`end` is a Lean keyword). -/
structure Level where
  start : Nat
  stop : Nat
deriving DecidableEq

/-- `Level::is_empty`: `start >= end`. -/
def Level.is_empty (l : Level) : Bool := decide (l.stop ≤ l.start)

/-- `Level::len`. -/
def Level.len (l : Level) : Nat := if l.is_empty then 0 else l.stop - l.start

/-- `Level::contains`. -/
def Level.contains (l : Level) (index : Nat) : Bool :=
  decide (l.start ≤ index) && decide (index < l.stop)

/-- `Level::down`: `half = (len + 1) >> 1`. -/
def Level.down (l : Level) : Option Level :=
  if l.is_empty then none
  else some ⟨l.stop, l.stop + (l.len + 1) / 2⟩

/-- `IndexedLevel` (src/merkle-tree/src/level.rs). -/
structure IndexedLevel where
  index : Nat
  level : Level
deriving DecidableEq

/-- `IndexedLevel::new`. -/
def IndexedLevel.new (index start stop : Nat) : Option IndexedLevel :=
  let level : Level := ⟨start, stop⟩
  if level.contains index && !level.is_empty then some ⟨index, level⟩ else none

/-- `IndexedLevel::parent`: `level.end + ((index - level.start) >> 1)`. -/
def IndexedLevel.parent (il : IndexedLevel) : Nat :=
  il.level.stop + (il.index - il.level.start) / 2

/-- `IndexedLevel::down`. -/
def IndexedLevel.down (il : IndexedLevel) : Option IndexedLevel :=
  (il.level.down).map (fun l => ⟨il.parent, l⟩)

/-- `IndexedLevel::sibling`: `(index - start) & 1 == 1` is `(index - start) % 2 = 1`. -/
def IndexedLevel.sibling (il : IndexedLevel) : Option Nat :=
  if (il.index - il.level.start) % 2 = 1 then some (il.index - 1)
  else if il.index = il.level.stop - 1 then none
  else some (il.index + 1)

/-- `IndexedLevel::siblings`, as the (left, right) pair. -/
def IndexedLevel.siblings (il : IndexedLevel) : Option Nat × Option Nat :=
  if (il.index - il.level.start) % 2 = 1 then (some (il.index - 1), some il.index)
  else (some il.index,
    if il.index = il.level.stop - 1 then none else some (il.index + 1))

/-- The loop of `tree_size` (src/merkle-tree/src/tree.rs): each iteration
increments `height`, adds the current level size to `sum`, stops once the
level has at most one node, else halves the level to `(leaf_count + 1) >> 1`. -/
def tree_size_loop (leaf_count height sum : Nat) : Nat × Nat :=
  if _h : leaf_count ≤ 1 then (sum + leaf_count, height + 1)
  else tree_size_loop ((leaf_count + 1) / 2) (height + 1) (sum + leaf_count)
termination_by leaf_count
decreasing_by omega

/-- `tree_size`: after the loop, a single level (`height == 1`) is padded
with an extra root node and forced to height 2. -/
def tree_size (leaf_count : Nat) : Nat × Nat :=
  let r := tree_size_loop leaf_count 0 0
  if r.2 = 1 then (r.1 + 1, r.2 + 1) else r

/-- `Sha512::output_size()` = 64 bytes. -/
def OUTPUT_SIZE : Nat := 64

/-- Stand-in for the SHA-512 digest over a byte stream: an arbitrary fixed
total function with 64-byte output.  No recorded verdict depends on digest
values, only on the 64-byte output length. -/
def specDigest (data : List Nat) : List Nat :=
  ((data.map (fun b => b % 256)) ++ List.replicate OUTPUT_SIZE 0).take OUTPUT_SIZE

/-- `MerkleTree` (src/merkle-tree/src/tree.rs).  The source stores node
hashes in one flat byte buffer at stride 64; here `hashes` keeps one 64-byte
slot per node. -/
structure MerkleTree where
  bitmap : List Bool
  hashes : List (List Nat)
  height : Nat
  leaf_count : Nat
deriving DecidableEq

/-- `MerkleTree::has`: `bitmap.get(i)` is `None` out of range. -/
def MerkleTree.has (t : MerkleTree) (index : Nat) : Bool :=
  t.bitmap.getD index false

/-- `MerkleTree::get_hash` (all reachable calls are in bounds). -/
def MerkleTree.get_hash (t : MerkleTree) (index : Nat) : List Nat :=
  t.hashes.getD index []

/-- `MerkleTree::built`: every bit of the node bitmap is set. -/
def MerkleTree.built (t : MerkleTree) : Bool :=
  t.bitmap.all (fun b => b)

/-- `MerkleTree::set_hash`: writes the 64-byte slot of node `index` and sets
its bit.  `none` models the panics: slicing `hashes[64·i .. 64·i+64)` out of
bounds, `clone_from_slice` with a source whose length is not 64, and
`bitmap.set` out of bounds. -/
def MerkleTree.set_hash (t : MerkleTree) (index : Nat) (hash : List Nat) :
    Option MerkleTree :=
  if index < t.hashes.length ∧ index < t.bitmap.length ∧
      hash.length = OUTPUT_SIZE then
    some { t with hashes := t.hashes.set index hash,
                  bitmap := t.bitmap.set index true }
  else none

/-- One sibling's contribution to the level digest in `build_down`: a missing
sibling (odd tail) contributes nothing; a present but unset sibling triggers
the early `return` (`none` here). -/
def sibInput (t : MerkleTree) (o : Option Nat) : Option (List Nat) :=
  match o with
  | none => some []
  | some i => if t.has i then some (t.get_hash i) else none

/-- The loop of `MerkleTree::build_down`, run for `height - 1` iterations.
The digest is fed each present sibling hash in left-right order and
`result()` resets it, so each parent hash is `D` of this level's
concatenated inputs.  An unset required sibling stops propagation silently
(returning the tree unchanged); `ilevel.down().unwrap()` and `set_hash`
panics are `none`. -/
def buildDownLoop (D : List Nat → List Nat) :
    Nat → MerkleTree → IndexedLevel → Option MerkleTree
  | 0, t, _ => some t
  | fuel + 1, t, il =>
    match sibInput t il.siblings.1, sibInput t il.siblings.2 with
    | some h1, some h2 =>
      match t.set_hash il.parent (D (h1 ++ h2)) with
      | none => none
      | some t2 =>
        match il.down with
        | none => none
        | some il2 => buildDownLoop D fuel t2 il2
    | _, _ => some t

/-- `MerkleTree::build_down`; `IndexedLevel::new(..).unwrap()` panics when the
leaf index is outside `[0, leaf_count)`. -/
def MerkleTree.build_down (D : List Nat → List Nat) (t : MerkleTree)
    (leaf_index : Nat) : Option MerkleTree :=
  match IndexedLevel.new leaf_index 0 t.leaf_count with
  | none => none
  | some il => buildDownLoop D (t.height - 1) t il

/-- `merkle_tree::error::Error` carries a formatted message; only the
out-of-range case is reachable here. -/
inductive MTError where
  | leafOutOfRange (index : Nat)
deriving DecidableEq

/-- `MerkleTree::set`: bounds check, write the leaf hash, propagate upward. -/
def MerkleTree.set (D : List Nat → List Nat) (t : MerkleTree)
    (leaf_index : Nat) (hash : List Nat) : Option (Except MTError MerkleTree) :=
  if t.leaf_count ≤ leaf_index then some (.error (.leafOutOfRange leaf_index))
  else
    match t.set_hash leaf_index hash with
    | none => none
    | some t2 =>
      match t2.build_down D leaf_index with
      | none => none
      | some t3 => some (.ok t3)

/-- `proof::error::ErrorKind`; the source pairs each kind with a formatted
debug message which the tests (and this development) never inspect. -/
inductive ProofErrorKind where
  | indexOutOfRange
  | invalidLength
  | invalidIndex
  | invalidHash
  | partialProof
deriving DecidableEq

/-- `Proof` (src/merkle-tree/src/proof/mod.rs); the Rust field `partial` is
named `partial_flag` here. -/
structure Proof where
  leaf_index : Nat
  leaf_hash : List Nat
  path : List (Option (List Nat))
  partial_flag : Bool
deriving DecidableEq

/-- `Proof::validate`. -/
def Proof.validate (self other : Proof) : Except ProofErrorKind Unit :=
  if self.leaf_index ≠ other.leaf_index then .error .invalidIndex
  else if (!self.partial_flag && !other.partial_flag) = true ∧
      self.path.length ≠ other.path.length then .error .invalidLength
  else
    let e := min self.path.length other.path.length
    if self.path.take e ≠ other.path.take e then .error .invalidHash
    else if self.partial_flag ≠ other.partial_flag then .error .partialProof
    else .ok ()

/-- The loop of `MerkleTree::prove`, run for `height` iterations: the entry
for a sibling that exists and is set is its hash, a missing sibling (odd
tail) yields `None`, and an existing-but-unset sibling `break`s out of the
loop (returning the path built so far).  Every executed iteration ends with
`ilevel.down().unwrap()` (`none` on panic). -/
def proveLoop (t : MerkleTree) :
    Nat → IndexedLevel → List (Option (List Nat)) →
    Option (List (Option (List Nat)))
  | 0, _, path => some path
  | fuel + 1, il, path =>
    match il.sibling with
    | some idx =>
      if t.has idx then
        match il.down with
        | none => none
        | some il2 => proveLoop t fuel il2 (path ++ [some (t.get_hash idx)])
      else some path
    | none =>
      match il.down with
      | none => none
      | some il2 => proveLoop t fuel il2 (path ++ [none])

/-- `MerkleTree::prove` (the `Provable` impl in src/merkle-tree/src/tree.rs). -/
def MerkleTree.prove (t : MerkleTree) (leaf_index : Nat) :
    Option (Except ProofErrorKind Proof) :=
  match IndexedLevel.new leaf_index 0 t.leaf_count with
  | none => none
  | some il =>
    match proveLoop t t.height il [] with
    | none => none
    | some path =>
      if path.length < 2 then some (.error .invalidLength)
      else some (.ok ⟨leaf_index, t.get_hash leaf_index, path, !t.built⟩)

/-- `MerkleTree::verify`: range, length and leaf-hash checks, then validate
a freshly generated local proof against the given one. -/
def MerkleTree.verify (t : MerkleTree) (p : Proof) :
    Option (Except ProofErrorKind Unit) :=
  if t.leaf_count ≤ p.leaf_index then some (.error .indexOutOfRange)
  else if p.path.length < 2 then some (.error .invalidLength)
  else if t.get_hash p.leaf_index ≠ p.leaf_hash then some (.error .invalidHash)
  else
    match t.prove p.leaf_index with
    | none => none
    | some (.error e) => some (.error e)
    | some (.ok p2) => some (p2.validate p)

/-- `tree.verify(tree.prove(i))`: the round-trip composition of claim C6
(`prove` errors propagate, a panic in either step stays a panic). -/
def roundTrip (t : MerkleTree) (i : Nat) : Option (Except ProofErrorKind Unit) :=
  match t.prove i with
  | none => none
  | some (.error e) => some (.error e)
  | some (.ok p) => t.verify p

/-- `Shard` (src/src/storage/shard.rs). -/
structure Shard where
  start : Nat
  stop : Nat
deriving DecidableEq

/-- `Shard`'s `Size` impl: `0` when `start > end`, else `end - start`. -/
def Shard.size (s : Shard) : Nat :=
  if s.start > s.stop then 0 else s.stop - s.start

/-- `storage::error::ErrorKind`, restricted to the kinds reachable in this
development. -/
inductive StorageErrorKind where
  | sizeMismatch (actual declared : Nat)
  | viewBuildError (start stop offset : Nat)
deriving DecidableEq

/-- `UniformView` (src/src/storage/view/uniform.rs).  Resource pointers are
identified by their position in the storage's resource list. -/
structure UniformView where
  start : Nat
  stop : Nat
  offset : Nat
  consumed : Nat
  view : List (Nat × Shard)
deriving DecidableEq

/-- `UniformView::new(start, end)`. -/
def UniformView.new (start stop : Nat) : UniformView := ⟨start, stop, 0, 0, []⟩

/-- `UniformView`'s `Size` impl: `end - start` (never underflows for views
created by `Sharded::view`, which passes `end = start + size`). -/
def UniformView.usize (v : UniformView) : Nat := v.stop - v.start

/-- `UniformView::add`.  `none` models a usize subtraction underflow (a
panic in debug builds); otherwise `some (v, flag)` where `flag` is the
boolean fed back to the `all` driver. -/
def UniformView.add (v : UniformView) (ptr size : Nat) :
    Option (UniformView × Bool) :=
  let offset := v.offset
  let v1 := { v with offset := v.offset + size }
  if v1.stop ≤ offset then some (v1, false)
  else if size = 0 ∨ v1.offset < v1.start then some (v1, true)
  else if v1.start + v1.consumed < offset then none
  else
    let st := v1.start + v1.consumed - offset
    if v1.usize < v1.consumed then none
    else if min size (v1.usize - v1.consumed) < st then none
    else
      let c := min size (v1.usize - v1.consumed) - st
      let v2 := { v1 with view := v1.view ++ [(ptr, ⟨st, st + c⟩)],
                          consumed := v1.consumed + c }
      some (v2, decide (v2.consumed ≠ v2.usize))

/-- The `resources.values().all(|r| builder.add(r))` driver: feed resources
in order, stopping early when `add` returns `false`. -/
def viewWalk : UniformView → List (Nat × Nat) → Option UniformView
  | v, [] => some v
  | v, (p, s) :: rest =>
    match v.add p s with
    | none => none
    | some (v2, true) => viewWalk v2 rest
    | some (v2, false) => some v2

/-- The resource environment seen by `GenericStorage` through the `Resource`
trait (`FileResource` semantics): a map from location to the container's
allocated size.  `exists` tests membership, `open` reads the allocated size,
`create` allocates a new container of the requested size. -/
structure FS where
  entries : List (String × Nat)
deriving DecidableEq

/-- `IndexMap::insert`: replace the value at an existing key keeping its
position, else append. -/
def indexInsert : List (String × Nat) → String → Nat → List (String × Nat)
  | [], k, v => [(k, v)]
  | (k0, v0) :: rest, k, v =>
    if k0 = k then (k, v) :: rest else (k0, v0) :: indexInsert rest k v

/-- `GenericStorage` (src/src/storage/generic/mod.rs): ordered
location-keyed resource map plus the running `total_size`.  Each resource is
kept as its size. -/
structure GenericStorage where
  name : String
  resources : List (String × Nat)
  total_size : Nat
deriving DecidableEq

/-- Sum of the sizes of the resources the storage actually holds. -/
def GenericStorage.heldSum (g : GenericStorage) : Nat :=
  (g.resources.map (fun r => r.2)).sum

/-- `GenericStorage::add`: open the resource if the location exists (reading
its allocated size), else create it at the declared size; fail on a size
mismatch; insert into the `IndexMap`. -/
def GenericStorage.add (fs : FS) (g : GenericStorage) (loc : String)
    (size : Nat) : FS × Except StorageErrorKind GenericStorage :=
  match fs.entries.lookup loc with
  | some actual =>
    if actual ≠ size then (fs, .error (.sizeMismatch actual size))
    else (fs, .ok { g with resources := indexInsert g.resources loc actual })
  | none =>
    (⟨fs.entries ++ [(loc, size)]⟩,
     .ok { g with resources := indexInsert g.resources loc size })

/-- The `try_for_each` of `GenericStorage::new`: `total_size` is increased by
the declared size before each `add`. -/
def newLoop (fs : FS) (g : GenericStorage) :
    List (String × Nat) → FS × Except StorageErrorKind GenericStorage
  | [] => (fs, .ok g)
  | (loc, size) :: rest =>
    let g1 := { g with total_size := g.total_size + size }
    match GenericStorage.add fs g1 loc size with
    | (fs2, .ok g2) => newLoop fs2 g2 rest
    | (fs2, .error e) => (fs2, .error e)

/-- `GenericStorage::new`. -/
def GenericStorage.new (fs : FS) (name : String)
    (items : List (String × Nat)) : FS × Except StorageErrorKind GenericStorage :=
  newLoop fs ⟨name, [], 0⟩ items

/-- `resources.values()` enumerated as (position, size) pairs. -/
def GenericStorage.sizes (g : GenericStorage) : List (Nat × Nat) :=
  g.resources.enum.map (fun r => (r.1, r.2.2))

/-- The `Sharded::view` impl: drive a `UniformView(start, start + size)`
over the resources, then `build` (failing iff `consumed ≠ size`). -/
def GenericStorage.view (g : GenericStorage) (start_idx size : Nat) :
    Option (Except StorageErrorKind (List (Nat × Shard))) :=
  match viewWalk (UniformView.new start_idx (start_idx + size)) g.sizes with
  | none => none
  | some v =>
    if v.consumed ≠ v.usize then
      some (.error (.viewBuildError v.start v.stop v.offset))
    else some (.ok v.view)

/-- `GenericStorage::read`: build the view, then read each shard through the
resource handle.  The handles (files, test cursors) satisfy every in-bounds
shard read in full, so the returned count is the sum of the shard sizes.
Byte contents are not tracked: no recorded verdict depends on them. -/
def GenericStorage.read (g : GenericStorage) (offset len : Nat) :
    Option (Except StorageErrorKind Nat) :=
  match g.view offset len with
  | none => none
  | some (.error e) => some (.error e)
  | some (.ok vs) => some (.ok ((vs.map (fun rs => rs.2.size)).sum))

/-- `GenericStorage::write`, symmetric to `read` (`len` is the source slice
length). -/
def GenericStorage.write (g : GenericStorage) (offset len : Nat) :
    Option (Except StorageErrorKind Nat) :=
  match g.view offset len with
  | none => none
  | some (.error e) => some (.error e)
  | some (.ok vs) => some (.ok ((vs.map (fun rs => rs.2.size)).sum))

/-- `StorageIterator` (src/src/storage/iter.rs).  `size` is the block size,
`buf_len` the current length of the reusable buffer (its bytes are not
tracked). -/
structure StorageIterator where
  size : Nat
  offset : Nat
  buf_len : Nat
deriving DecidableEq

/-- `StorageIterator::new`: `offset = 0`, buffer of `size` zeros. -/
def StorageIterator.new (size : Nat) : StorageIterator := ⟨size, 0, size⟩

/-- `StreamingIterator::advance`: read at `offset` into the buffer; on
`Ok(n)` advance `offset += n` and truncate the buffer to `n` when
`n != size`; on `Err(_)` jump `offset` to `storage.size()`. -/
def StorageIterator.advance (g : GenericStorage) (it : StorageIterator) :
    Option StorageIterator :=
  match g.read it.offset it.buf_len with
  | none => none
  | some (.ok n) =>
    some { it with offset := it.offset + n,
                   buf_len := if n ≠ it.size then n else it.buf_len }
  | some (.error _) => some { it with offset := g.total_size }

/-- `StreamingIterator::get`: `None` iff `offset >= self.size` — the source
compares the running offset against the BLOCK size, not the storage size. -/
def StorageIterator.get (it : StorageIterator) : Option Nat :=
  if it.size ≤ it.offset then none else some it.buf_len

/-- `StreamingIterator::next = advance(); get()`, returning the new iterator
state and the yielded item (the buffer, tracked by length). -/
def StorageIterator.next (g : GenericStorage) (it : StorageIterator) :
    Option (StorageIterator × Option Nat) :=
  match it.advance g with
  | none => none
  | some it2 => some (it2, it2.get)

/-- `storage::map::error::ErrorKind`, restricted to the reachable kinds. -/
inductive MapErrorKind where
  | chunkAlreadyExists (c : Nat)
  | chunkDoesNotExist (c : Nat)
  | storageError (e : StorageErrorKind)
  | merkleTreeError (e : MTError)
deriving DecidableEq

/-- `StorageMap` (src/src/storage/map/mod.rs). -/
structure StorageMap where
  tree : MerkleTree
  chunks : ChunkMap
  storage : GenericStorage
deriving DecidableEq

/-- `StorageMap::has_chunk`: `bitmap.get` is `None` out of range, mapped to
`false`. -/
def StorageMap.has_chunk (m : StorageMap) (chunk_num : Nat) : Bool :=
  m.chunks.bitmap.getD chunk_num false

/-- `StorageMap::has_piece`: all `chunks_in_piece` chunk bits starting at
`(piece · piece_size) / chunk_size` are set. -/
def StorageMap.has_piece (m : StorageMap) (piece_num : Nat) : Bool :=
  let first_chunk := (piece_num * m.chunks.piece_size) / m.chunks.chunk_size
  (List.range m.chunks.chunks_in_piece).all
    (fun i => m.has_chunk (first_chunk + i))

/-- `StorageMap::piece_from_chunk`. -/
def StorageMap.piece_from_chunk (m : StorageMap) (chunk_num : Nat) : Nat :=
  (chunk_num * m.chunks.chunk_size) / m.chunks.piece_size

/-- `StorageMap::read_storage`: allocates `vec![0; size]` and reads into it;
the buffer is materialised as zeros of exactly `size` bytes (contents
influence no recorded verdict). -/
def StorageMap.read_storage (m : StorageMap) (offset size : Nat) :
    Option (Except MapErrorKind (List Nat)) :=
  match m.storage.read offset size with
  | none => none
  | some (.error e) => some (.error (.storageError e))
  | some (.ok _) => some (.ok (List.replicate size 0))

/-- `StorageMap::read_chunk`. -/
def StorageMap.read_chunk (m : StorageMap) (chunk : Nat) :
    Option (Except MapErrorKind (List Nat)) :=
  if !m.has_chunk chunk then some (.error (.chunkDoesNotExist chunk))
  else m.read_storage (chunk * m.chunks.chunk_size) m.chunks.chunk_size

/-- `StorageMap::update_tree`: re-read the `piece_size` bytes of the piece
and pass the RAW buffer to `tree.set` as the leaf hash (the source computes
no digest here). -/
def StorageMap.update_tree (D : List Nat → List Nat) (m : StorageMap)
    (piece_num : Nat) : Option (Except MapErrorKind StorageMap) :=
  match m.read_storage (piece_num * m.chunks.piece_size) m.chunks.piece_size with
  | none => none
  | some (.error e) => some (.error e)
  | some (.ok buffer) =>
    match m.tree.set D piece_num buffer with
    | none => none
    | some (.error e) => some (.error (.merkleTreeError e))
    | some (.ok t2) => some (.ok { m with tree := t2 })

/-- `StorageMap::write_chunk`.  The result pairs the outcome with the state
after the call: mutations made before an error persist, as with `&mut self`
in Rust.  `none` models panics (`bitmap.set` out of bounds, or the
`set_hash` length-mismatch panic inside `update_tree`). -/
def StorageMap.write_chunk (D : List Nat → List Nat) (m : StorageMap)
    (chunk : Nat) (data : List Nat) :
    Option (Except MapErrorKind Unit × StorageMap) :=
  if m.has_chunk chunk then some (.error (.chunkAlreadyExists chunk), m)
  else
    let offset := chunk * m.chunks.chunk_size
    match m.storage.write offset data.length with
    | none => none
    | some (.error e) => some (.error (.storageError e), m)
    | some (.ok _) =>
      if chunk < m.chunks.bitmap.length then
        let m1 :=
          { m with chunks :=
              { m.chunks with bitmap := m.chunks.bitmap.set chunk true } }
        let piece_num := m1.piece_from_chunk chunk
        if m1.has_piece piece_num then
          match m1.update_tree D piece_num with
          | none => none
          | some (.error e) => some (.error e, m1)
          | some (.ok m2) => some (.ok (), m2)
        else some (.ok (), m1)
      else none

/-! Helper lemmas. -/

deriving instance DecidableEq for Except

lemma piece_size_of_eq (total_size : Nat) : piece_size_of total_size = 16384 := by
  unfold piece_size_of
  refine Nat.max_eq_right ?_
  calc min (if 0 < total_size then 2 ^ Nat.log2 total_size else 0) MAX_PIECE_SIZE
      ≤ MAX_PIECE_SIZE := Nat.min_le_right _ _
    _ ≤ MIN_PIECE_SIZE := by decide

lemma add_total_size (fs : FS) (g : GenericStorage) (loc : String) (size : Nat)
    (fs2 : FS) (g2 : GenericStorage)
    (h : GenericStorage.add fs g loc size = (fs2, .ok g2)) :
    g2.total_size = g.total_size := by
  unfold GenericStorage.add at h
  split at h
  · split at h
    · simp at h
    · simp only [Prod.mk.injEq] at h
      obtain ⟨h1, h2⟩ := h
      injection h2 with h3
      rw [← h3]
  · simp only [Prod.mk.injEq] at h
    obtain ⟨h1, h2⟩ := h
    injection h2 with h3
    rw [← h3]

lemma newLoop_total_size (items : List (String × Nat)) :
    ∀ (fs : FS) (g : GenericStorage) (fs2 : FS) (g2 : GenericStorage),
      newLoop fs g items = (fs2, .ok g2) →
      g2.total_size = g.total_size + (items.map (fun r => r.2)).sum := by
  induction items with
  | nil =>
    intro fs g fs2 g2 h
    simp only [newLoop, Prod.mk.injEq] at h
    obtain ⟨h1, h2⟩ := h
    injection h2 with h3
    simp [← h3]
  | cons a rest ih =>
    obtain ⟨loc, size⟩ := a
    intro fs g fs2 g2 h
    simp only [newLoop] at h
    cases hadd : GenericStorage.add fs { g with total_size := g.total_size + size }
        loc size with
    | mk fs3 r =>
      rw [hadd] at h
      cases r with
      | ok g3 =>
        have ht : g3.total_size = g.total_size + size := by
          simpa using add_total_size _ _ _ _ _ _ hadd
        have hrec := ih fs3 g3 fs2 g2 h
        simp only [List.map_cons, List.sum_cons]
        omega
      | error e => simp at h

/-! Claim theorems. -/

/-- C9: for every `total_size` (including 0), `ChunkMap::new` yields
`piece_size = max(min(2^⌊log2 total_size⌋, MAX_PIECE_SIZE), MIN_PIECE_SIZE)
= 16384`, hence `chunk_size = 4096`, `chunks_in_piece = 4`,
`piece_count = ⌈total_size / 16384⌉` and `chunk_count = 4 · piece_count`. -/
theorem c9_chunk_map_constants (total_size : Nat) (all_set : Bool) :
    (ChunkMap.new total_size all_set).piece_size = 16384 ∧
    (ChunkMap.new total_size all_set).chunk_size = 4096 ∧
    (ChunkMap.new total_size all_set).chunks_in_piece = 4 ∧
    (ChunkMap.new total_size all_set).piece_count =
      (total_size + 16384 - 1) / 16384 ∧
    (ChunkMap.new total_size all_set).chunk_count =
      4 * ((total_size + 16384 - 1) / 16384) := by
  simp only [ChunkMap.new, div_upper, piece_size_of_eq]
  norm_num [Nat.mul_comm]

/-- C4 counterexample: a zero-length view request at start offset 5 over a
single 10-byte resource panics in `UniformView::add` — the subtraction
`min(size, self.size() - self.consumed) - start` computes `0 - 5` in usize —
instead of succeeding with an empty view. -/
theorem c4_counterexample :
    GenericStorage.view ⟨"s", [("a", 10)], 10⟩ 5 0 = none := by decide

/-- C4 amended: building a view for the zero-length request at start
offset 0 succeeds and produces an empty view for every resource list; for a
zero-length request at a positive start offset reaching into the data the
`add` step hits an unguarded usize subtraction (see the counterexample). -/
theorem c4_zero_length_request (g : GenericStorage) :
    g.view 0 0 = some (.ok []) := by
  unfold GenericStorage.view
  cases hs : g.sizes with
  | nil => simp [viewWalk, UniformView.new, UniformView.usize]
  | cons a rest =>
    obtain ⟨p, s⟩ := a
    simp [viewWalk, UniformView.new, UniformView.add, UniformView.usize]

/-- C1 at the failing input: a storage of two 256-byte resources
(`total_size = 512 ≥ block_size = 256 > 0`).  The first `next()` reads a
full block (`Ok(256)`), advances `offset` to 256, and `get()` — which
compares `offset` against the BLOCK size — already returns `None`: the
sequence is empty and spans no byte of `[0, 512)`. -/
theorem c1_iter_empty_on_code :
    0 < 256 ∧ 256 ≤ GenericStorage.total_size ⟨"s", [("a", 256), ("b", 256)], 512⟩ ∧
    StorageIterator.next ⟨"s", [("a", 256), ("b", 256)], 512⟩
      (StorageIterator.new 256) = some (⟨256, 256, 256⟩, none) := by decide

/-- C3 at the failing input: over an empty storage (`total_size = 0`) with
`block_size = 1`, the first read fails, the iterator jumps `offset` to
`total_size = 0`, and `get()` (comparing `offset` with the block size)
still yields the stale buffer: `next()` is a fixpoint that returns an item,
so the sequence never ends. -/
theorem c3_iter_error_fixpoint :
    StorageIterator.next ⟨"s", [], 0⟩ (StorageIterator.new 1) =
      some (StorageIterator.new 1, some 1) := by decide

/-- C5 counterexample: `Storage::new` succeeds on the duplicate item list
`[("A", 128), ("A", 128)]` — the second `add` opens the existing resource
and the `IndexMap` insert replaces the first entry — yet `total_size = 256`
while the single held resource sums to 128. -/
theorem c5_counterexample :
    (GenericStorage.new ⟨[]⟩ "s" [("A", 128), ("A", 128)]).2 =
      .ok ⟨"s", [("A", 128)], 256⟩ ∧
    GenericStorage.heldSum ⟨"s", [("A", 128)], 256⟩ ≠ 256 := by decide

/-- C5 amended: for every successful `Storage::new(name, items)` the
resulting `total_size` equals the sum of the declared sizes of ALL input
items (duplicated locations counted each time); this equals the sum over
the resources actually held only when the locations are distinct, and no
subsequent operation modifies it. -/
theorem c5_total_size_sum_items (fs : FS) (name : String)
    (items : List (String × Nat)) (fs2 : FS) (g : GenericStorage)
    (h : GenericStorage.new fs name items = (fs2, .ok g)) :
    g.total_size = (items.map (fun r => r.2)).sum := by
  simpa using newLoop_total_size items fs ⟨name, [], 0⟩ fs2 g h

/-- C5 witness: the amended theorem applied to a concrete two-item list. -/
theorem c5_total_size_sum_items_witness :
    GenericStorage.total_size ⟨"s", [("A", 1), ("B", 2)], 3⟩ =
      (([("A", 1), ("B", 2)] : List (String × Nat)).map (fun r => r.2)).sum :=
  c5_total_size_sum_items ⟨[]⟩ "s" [("A", 1), ("B", 2)]
    ⟨[("A", 1), ("B", 2)]⟩ ⟨"s", [("A", 1), ("B", 2)], 3⟩ (by decide)

/-- C10: for every storage map whose chunk bitmap has one bit per chunk and
every chunk index `c ≥ chunk_count`, `has_chunk(c)` returns `false` (it
never fails) and `read_chunk(c)` returns `ChunkDoesNotExist(c)` — the very
error constructor used for an absent in-range chunk; there is no distinct
out-of-range error at this interface (and `read_chunk` takes no mutable
state). -/
theorem c10_out_of_range_chunk (m : StorageMap) (c : Nat)
    (hlen : m.chunks.bitmap.length = m.chunks.chunk_count)
    (hc : m.chunks.chunk_count ≤ c) :
    m.has_chunk c = false ∧
    m.read_chunk c = some (.error (.chunkDoesNotExist c)) := by
  have h1 : m.has_chunk c = false := by
    unfold StorageMap.has_chunk
    exact List.getD_eq_default _ _ (by omega)
  refine ⟨h1, ?_⟩
  unfold StorageMap.read_chunk
  rw [h1]
  simp

/-- C10 witness: the theorem applied to a concrete storage map and the
out-of-range chunk index 7. -/
theorem c10_out_of_range_chunk_witness :
    StorageMap.has_chunk
        ⟨⟨[false, false], List.replicate 2 (List.replicate 64 0), 2, 1⟩,
         ⟨[false, true, true, true], 4096, 4, 16384, 1, 4⟩,
         ⟨"s", [("a", 100)], 100⟩⟩ 7 = false ∧
    StorageMap.read_chunk
        ⟨⟨[false, false], List.replicate 2 (List.replicate 64 0), 2, 1⟩,
         ⟨[false, true, true, true], 4096, 4, 16384, 1, 4⟩,
         ⟨"s", [("a", 100)], 100⟩⟩ 7 =
      some (.error (.chunkDoesNotExist 7)) :=
  c10_out_of_range_chunk _ 7 (by decide) (by decide)

/-- A storage map as restored from a persisted blob: one 65536-byte
resource, piece 0 missing only chunk 0 (bits 1,2,3 set), tree empty
(`leaf_count = 4`, 7 nodes, height 3). -/
def mapMissingOneChunk : StorageMap :=
  ⟨⟨List.replicate 7 false, List.replicate 7 (List.replicate 64 0), 3, 4⟩,
   ⟨[false, true, true, true] ++ List.replicate 12 true, 4096, 16, 16384, 4, 4⟩,
   ⟨"s", [("a", 65536)], 65536⟩⟩

lemma write_chunk_complete_piece_panics (D : List Nat → List Nat)
    (m m1 : StorageMap) (c : Nat) (data : List Nat) (n k : Nat)
    (hm1 : m1 = { m with chunks :=
      { m.chunks with bitmap := m.chunks.bitmap.set c true } })
    (h0 : m.has_chunk c = false)
    (hw : m.storage.write (c * m.chunks.chunk_size) data.length = some (.ok n))
    (hc : c < m.chunks.bitmap.length)
    (hp : m1.has_piece (m1.piece_from_chunk c) = true)
    (hr : m1.storage.read (m1.piece_from_chunk c * m1.chunks.piece_size)
        m1.chunks.piece_size = some (.ok k))
    (hleaf : m1.piece_from_chunk c < m1.tree.leaf_count)
    (hsz : m1.chunks.piece_size ≠ OUTPUT_SIZE) :
    StorageMap.write_chunk D m c data = none := by
  unfold StorageMap.write_chunk
  rw [if_neg (by simp [h0])]
  dsimp only
  rw [hw]
  rw [if_pos hc]
  dsimp only
  rw [← hm1]
  rw [if_pos hp]
  unfold StorageMap.update_tree StorageMap.read_storage
  rw [hr]
  dsimp only
  unfold MerkleTree.set
  rw [if_neg (by omega : ¬ m1.tree.leaf_count ≤ m1.piece_from_chunk c)]
  unfold MerkleTree.set_hash
  rw [if_neg ?hcond]
  case hcond =>
    intro hcon
    exact hsz (by simpa [List.length_replicate] using hcon.2.2)

/-- C2 at the failing input: writing the one missing chunk of piece 0
completes the piece, and `update_tree` passes the RAW 16384-byte piece
buffer to `tree.set` as the leaf hash — no digest is computed — so
`set_hash`'s 64-byte `clone_from_slice` panics (modelled as `none`).  The
claimed behavior (digest the piece bytes, store the 64-byte digest in
leaf 0) never happens. -/
theorem c2_write_chunk_panics :
    StorageMap.write_chunk specDigest mapMissingOneChunk 0
      (List.replicate 4096 0) = none :=
  write_chunk_complete_piece_panics specDigest mapMissingOneChunk
    { mapMissingOneChunk with chunks :=
      { mapMissingOneChunk.chunks with
          bitmap := mapMissingOneChunk.chunks.bitmap.set 0 true } }
    0 (List.replicate 4096 0) 4096 16384
    rfl (by decide) (by rw [List.length_replicate]; decide) (by decide)
    (by decide) (by decide) (by decide) (by decide)

/-- A storage map restored from a persisted blob whose backing storage
(100 bytes) is smaller than one piece: piece 0 misses only chunk 0. -/
def mapShortPiece : StorageMap :=
  ⟨⟨[false, false], List.replicate 2 (List.replicate 64 0), 2, 1⟩,
   ⟨[false, true, true, true], 4096, 4, 16384, 1, 4⟩,
   ⟨"s", [("a", 100)], 100⟩⟩

/-- The state after `write_chunk(0, ..)` on `mapShortPiece`: bit 0 set. -/
def mapShortPieceAfter : StorageMap :=
  { mapShortPiece with chunks :=
      { mapShortPiece.chunks with bitmap := [true, true, true, true] } }

/-- C8 counterexample: on `mapShortPiece`, `write_chunk(0, 50 bytes)`
writes, sets bit 0, finds piece 0 complete, and `update_tree`'s
`piece_size`-byte re-read fails (the piece range exceeds `total_size`);
the call returns an error with bit 0 LEFT SET — the chunk bitmap is not
restored, contradicting the claim that bit `c` equals its value before
the call whenever `write_chunk` errors. -/
theorem c8_counterexample :
    StorageMap.write_chunk specDigest mapShortPiece 0 (List.replicate 50 0) =
      some (.error (.storageError (.viewBuildError 0 16384 100)),
        mapShortPieceAfter) ∧
    mapShortPieceAfter.chunks.bitmap ≠ mapShortPiece.chunks.bitmap := by decide

/-- C8 amended: when `write_chunk` returns an error the Merkle tree and the
storage are unchanged, and the chunk bitmap is unchanged UNLESS the error
arose in the piece-update step after the bit was flipped, in which case
exactly bit `c` remains set (bytes already written to the backing storage
may persist in either case, as the specification allows). -/
theorem c8_error_state (D : List Nat → List Nat) (m : StorageMap) (c : Nat)
    (data : List Nat) (e : MapErrorKind) (m2 : StorageMap)
    (h : StorageMap.write_chunk D m c data = some (.error e, m2)) :
    m2.tree = m.tree ∧ m2.storage = m.storage ∧
      (m2.chunks = m.chunks ∨
        m2.chunks = { m.chunks with bitmap := m.chunks.bitmap.set c true }) := by
  unfold StorageMap.write_chunk at h
  by_cases h0 : m.has_chunk c = true
  · rw [if_pos h0] at h
    simp only [Option.some.injEq, Prod.mk.injEq] at h
    obtain ⟨h1, h2⟩ := h
    rw [← h2]
    exact ⟨rfl, rfl, Or.inl rfl⟩
  · rw [if_neg h0] at h
    dsimp only at h
    cases hw : m.storage.write (c * m.chunks.chunk_size) data.length with
    | none => rw [hw] at h; exact Option.noConfusion h
    | some r =>
      rw [hw] at h
      cases r with
      | error e2 =>
        simp only [Option.some.injEq, Prod.mk.injEq] at h
        obtain ⟨h1, h2⟩ := h
        rw [← h2]
        exact ⟨rfl, rfl, Or.inl rfl⟩
      | ok n =>
        by_cases hlen : c < m.chunks.bitmap.length
        · rw [if_pos hlen] at h
          dsimp only at h
          set m1 : StorageMap :=
            { m with chunks :=
                { m.chunks with bitmap := m.chunks.bitmap.set c true } } with hm1
          by_cases hp : m1.has_piece (m1.piece_from_chunk c) = true
          · rw [if_pos hp] at h
            cases hu : m1.update_tree D (m1.piece_from_chunk c) with
            | none => rw [hu] at h; exact Option.noConfusion h
            | some r2 =>
              rw [hu] at h
              cases r2 with
              | error e3 =>
                simp only [Option.some.injEq, Prod.mk.injEq] at h
                obtain ⟨h1, h2⟩ := h
                rw [← h2]
                exact ⟨rfl, rfl, Or.inr rfl⟩
              | ok m3 => simp at h
          · rw [if_neg hp] at h
            simp at h
        · rw [if_neg hlen] at h
          exact Option.noConfusion h

/-- C8 witness: the amended theorem applied at the concrete failing input
of the counterexample. -/
theorem c8_error_state_witness :
    mapShortPieceAfter.tree = mapShortPiece.tree ∧
    mapShortPieceAfter.storage = mapShortPiece.storage ∧
      (mapShortPieceAfter.chunks = mapShortPiece.chunks ∨
        mapShortPieceAfter.chunks =
          { mapShortPiece.chunks with
              bitmap := mapShortPiece.chunks.bitmap.set 0 true }) :=
  c8_error_state specDigest mapShortPiece 0 (List.replicate 50 0)
    (.storageError (.viewBuildError 0 16384 100)) mapShortPieceAfter (by decide)

/-- Closed form of the node count accumulated by `tree_size`'s loop from a
level of `l` nodes: level sizes `l, ⌈l/2⌉, …` down to a single node. -/
def nsum (l : Nat) : Nat :=
  if _h : l ≤ 1 then l else l + nsum ((l + 1) / 2)
termination_by l
decreasing_by omega

/-- Closed form of the level count of `tree_size`'s loop. -/
def nlevels (l : Nat) : Nat :=
  if _h : l ≤ 1 then 1 else 1 + nlevels ((l + 1) / 2)
termination_by l
decreasing_by omega

lemma nsum_le (l : Nat) : l ≤ nsum l := by
  rw [nsum]
  split <;> omega

lemma nlevels_pos (l : Nat) : 1 ≤ nlevels l := by
  rw [nlevels]
  split <;> omega

lemma tree_size_loop_eq (l : Nat) :
    ∀ h s, tree_size_loop l h s = (s + nsum l, h + nlevels l) := by
  induction l using Nat.strong_induction_on with
  | _ l ih =>
    intro h s
    by_cases hl : l ≤ 1
    · rw [tree_size_loop, dif_pos hl, nsum, dif_pos hl, nlevels, dif_pos hl]
    · rw [tree_size_loop, dif_neg hl, nsum, dif_neg hl, nlevels, dif_neg hl,
        ih ((l + 1) / 2) (by omega)]
      simp only [Prod.mk.injEq]
      omega

lemma tree_size_eq (l : Nat) :
    tree_size l = if l ≤ 1 then (l + 1, 2) else (nsum l, nlevels l) := by
  unfold tree_size
  rw [tree_size_loop_eq l 0 0]
  by_cases hl : l ≤ 1
  · have h1 : nlevels l = 1 := by rw [nlevels, dif_pos hl]
    have h2 : nsum l = l := by rw [nsum, dif_pos hl]
    simp [h1, h2, hl]
  · have h1 : 2 ≤ nlevels l := by
      rw [nlevels, dif_neg hl]
      have := nlevels_pos ((l + 1) / 2)
      omega
    simp only [Nat.zero_add]
    rw [if_neg (by omega), if_neg hl]

lemma height_ge_two (l : Nat) : 2 ≤ (tree_size l).2 := by
  rw [tree_size_eq]
  by_cases hl : l ≤ 1
  · simp [hl]
  · have h1 : 2 ≤ nlevels l := by
      rw [nlevels, dif_neg hl]
      have := nlevels_pos ((l + 1) / 2)
      omega
    simp [hl, h1]

lemma all_getD_true (l : List Bool) (h : l.all (fun b => b) = true)
    (i : Nat) (hi : i < l.length) : l.getD i false = true := by
  rw [List.getD_eq_getElem l false hi]
  simpa using List.all_eq_true.mp h _ (List.getElem_mem hi)
/-- On a fully set bitmap the `prove` loop never breaks and never panics: it
runs exactly `fuel` iterations, appending one path entry per level.  The
invariant `start + nsum l ≤ bitmap.length` bounds every sibling index
accessed on levels of two or more nodes. -/
lemma proveLoop_built (t : MerkleTree) (hall : t.bitmap.all (fun b => b) = true) :
    ∀ (fuel l start idx : Nat) (path : List (Option (List Nat))),
      1 ≤ l → start ≤ idx → idx < start + l →
      (2 ≤ l → start + nsum l ≤ t.bitmap.length) →
      ∃ ext, proveLoop t fuel ⟨idx, ⟨start, start + l⟩⟩ path = some (path ++ ext) ∧
        ext.length = fuel := by
  intro fuel
  induction fuel with
  | zero =>
    intro l start idx path h1 h2 h3 h4
    exact ⟨[], by simp [proveLoop], rfl⟩
  | succ n ih =>
    intro l start idx path h1 h2 h3 h4
    have hne : (Level.mk start (start + l)).is_empty = false := by
      simp [Level.is_empty]
      omega
    have hlen : (Level.mk start (start + l)).len = l := by
      simp [Level.len, hne]
    have hdown : IndexedLevel.down ⟨idx, ⟨start, start + l⟩⟩ =
        some ⟨start + l + (idx - start) / 2, ⟨start + l, start + l + (l + 1) / 2⟩⟩ := by
      simp [IndexedLevel.down, Level.down, hne, hlen, IndexedLevel.parent]
    -- invariant transfer to the next level up
    have hrec : ∀ entry : Option (List Nat),
        ∃ ext, proveLoop t n
            ⟨start + l + (idx - start) / 2, ⟨start + l, start + l + (l + 1) / 2⟩⟩
            (path ++ [entry]) = some ((path ++ [entry]) ++ ext) ∧
          ext.length = n := by
      intro entry
      have e1 : start + l + (l + 1) / 2 = (start + l) + ((l + 1) / 2) := by omega
      have := ih ((l + 1) / 2) (start + l) (start + l + (idx - start) / 2)
        (path ++ [entry]) (by omega) (by omega) (by omega) ?hinv
      · rwa [← e1] at this
      case hinv =>
        intro hup
        have hl3 : 3 ≤ l := by omega
        have hbig := h4 (by omega)
        have hnl : nsum l = l + nsum ((l + 1) / 2) := by
          rw [nsum, dif_neg (by omega : ¬ l ≤ 1)]
        omega
    by_cases hodd : (idx - start) % 2 = 1
    · -- odd position: left sibling idx - 1 exists and is set
      have hl2 : 2 ≤ l := by omega
      have hsib : IndexedLevel.sibling ⟨idx, ⟨start, start + l⟩⟩ = some (idx - 1) := by
        simp [IndexedLevel.sibling, hodd]
      have hhas : t.has (idx - 1) = true := by
        unfold MerkleTree.has
        refine all_getD_true t.bitmap hall _ ?_
        have := h4 hl2
        have := nsum_le l
        omega
      obtain ⟨ext, hext, hextlen⟩ := hrec (some (t.get_hash (idx - 1)))
      refine ⟨some (t.get_hash (idx - 1)) :: ext, ?_, by simp [hextlen]⟩
      simp only [proveLoop, hsib, hhas, if_true, hdown]
      rw [hext, List.append_assoc]
      rfl
    · by_cases hlast : idx = start + l - 1
      · -- even position, last of level: no sibling
        have hsib : IndexedLevel.sibling ⟨idx, ⟨start, start + l⟩⟩ = none := by
          simp [IndexedLevel.sibling, hodd, hlast]
          omega
        obtain ⟨ext, hext, hextlen⟩ := hrec none
        refine ⟨none :: ext, ?_, by simp [hextlen]⟩
        simp only [proveLoop, hsib, hdown]
        rw [hext, List.append_assoc]
        rfl
      · -- even position with a right sibling idx + 1
        have hl2 : 2 ≤ l := by omega
        have hsib : IndexedLevel.sibling ⟨idx, ⟨start, start + l⟩⟩ = some (idx + 1) := by
          simp [IndexedLevel.sibling, hodd]
          omega
        have hhas : t.has (idx + 1) = true := by
          unfold MerkleTree.has
          refine all_getD_true t.bitmap hall _ ?_
          have := h4 hl2
          have := nsum_le l
          omega
        obtain ⟨ext, hext, hextlen⟩ := hrec (some (t.get_hash (idx + 1)))
        refine ⟨some (t.get_hash (idx + 1)) :: ext, ?_, by simp [hextlen]⟩
        simp only [proveLoop, hsib, hhas, if_true, hdown]
        rw [hext, List.append_assoc]
        rfl
/-- On a fully built, well-shaped tree `prove` succeeds for every leaf with
a non-partial proof whose path has exactly `height` entries. -/
lemma prove_built (t : MerkleTree)
    (hwf1 : t.bitmap.length = (tree_size t.leaf_count).1)
    (hwf2 : t.height = (tree_size t.leaf_count).2)
    (hb : t.built = true) (i : Nat) (hi : i < t.leaf_count) :
    ∃ path, t.prove i = some (.ok ⟨i, t.get_hash i, path, false⟩) ∧
      path.length = t.height ∧ 2 ≤ path.length := by
  have hL : 1 ≤ t.leaf_count := by omega
  have hnew : IndexedLevel.new i 0 t.leaf_count = some ⟨i, ⟨0, t.leaf_count⟩⟩ := by
    unfold IndexedLevel.new
    rw [if_pos]
    simp [Level.contains, Level.is_empty]
    omega
  have hinv : 2 ≤ t.leaf_count → 0 + nsum t.leaf_count ≤ t.bitmap.length := by
    intro h2
    rw [hwf1, tree_size_eq, if_neg (by omega)]
    omega
  obtain ⟨ext, hext, hextlen⟩ := proveLoop_built t hb t.height t.leaf_count 0 i []
    hL (Nat.zero_le i) (by omega) hinv
  rw [Nat.zero_add] at hext
  have hh2 : 2 ≤ t.height := by rw [hwf2]; exact height_ge_two t.leaf_count
  refine ⟨ext, ?_, by omega, by omega⟩
  unfold MerkleTree.prove
  rw [hnew]
  dsimp only
  rw [hext]
  dsimp only
  simp only [List.nil_append]
  rw [if_neg (by omega), hb]
  rfl

/-- `Proof::validate` accepts a proof against itself. -/
lemma validate_self (p : Proof) : p.validate p = .ok () := by
  unfold Proof.validate
  simp

/-- When the three preliminary checks of `verify` pass and the local proof
regenerates as `p`, `verify` reduces to `p.validate q`. -/
lemma verify_eq_validate (t : MerkleTree) (q p : Proof)
    (hq1 : q.leaf_index < t.leaf_count) (hq2 : 2 ≤ q.path.length)
    (hq3 : t.get_hash q.leaf_index = q.leaf_hash)
    (hp : t.prove q.leaf_index = some (.ok p)) :
    t.verify q = some (p.validate q) := by
  unfold MerkleTree.verify
  rw [if_neg (by omega), if_neg (by omega), if_neg (by simp [hq3]), hp]

/-- C6: for every fully built Merkle tree (well-shaped: bitmap length and
height given by `tree_size`, all node bits set) and every leaf index
`i < leaf_count`, the round trip `tree.verify(tree.prove(i))` returns `Ok`. -/
theorem c6_verify_prove_roundtrip (t : MerkleTree)
    (hwf1 : t.bitmap.length = (tree_size t.leaf_count).1)
    (hwf2 : t.height = (tree_size t.leaf_count).2)
    (hb : t.built = true) (i : Nat) (hi : i < t.leaf_count) :
    roundTrip t i = some (.ok ()) := by
  obtain ⟨path, hp, hlen, h2⟩ := prove_built t hwf1 hwf2 hb i hi
  unfold roundTrip
  rw [hp]
  dsimp only
  rw [verify_eq_validate t _ _ (by simpa using hi) (by simpa using h2) rfl
    (by simpa using hp)]
  rw [validate_self]

/-- A concrete fully built tree with 3 leaves (6 nodes, height 3). -/
def builtTree3 : MerkleTree :=
  ⟨List.replicate 6 true, List.replicate 6 (List.replicate 64 0), 3, 3⟩

/-- C6 witness: the round-trip theorem applied to the concrete built
3-leaf tree at leaf 0. -/
theorem c6_verify_prove_roundtrip_witness : roundTrip builtTree3 0 = some (.ok ()) :=
  c6_verify_prove_roundtrip builtTree3 (by simp [builtTree3, tree_size_eq, nsum, nlevels])
    (by simp [builtTree3, tree_size_eq, nsum, nlevels]) (by decide) 0 (by decide)

/-- Inversion of a successful `prove`: the produced proof carries the leaf
index, the local leaf hash and the `!built` flag, has at least two path
entries, and the index is in range. -/
lemma prove_ok_inv (t : MerkleTree) (i : Nat) (p : Proof)
    (h : t.prove i = some (.ok p)) :
    p.leaf_index = i ∧ p.leaf_hash = t.get_hash i ∧
      p.partial_flag = (!t.built) ∧ 2 ≤ p.path.length ∧ i < t.leaf_count := by
  unfold MerkleTree.prove at h
  cases hn : IndexedLevel.new i 0 t.leaf_count with
  | none => rw [hn] at h; exact Option.noConfusion h
  | some il =>
    rw [hn] at h
    have hil : i < t.leaf_count := by
      unfold IndexedLevel.new at hn
      by_cases hc : (Level.contains ⟨0, t.leaf_count⟩ i &&
          !(Level.is_empty ⟨0, t.leaf_count⟩)) = true
      · simp [Level.contains] at hc
        exact hc.1
      · rw [if_neg hc] at hn
        exact Option.noConfusion hn
    dsimp only at h
    cases hpl : proveLoop t t.height il [] with
    | none => rw [hpl] at h; exact Option.noConfusion h
    | some path =>
      rw [hpl] at h
      dsimp only at h
      by_cases hl : path.length < 2
      · rw [if_pos hl] at h
        simp at h
      · rw [if_neg hl] at h
        simp only [Option.some.injEq] at h
        injection h with h2
        rw [← h2]
        refine ⟨rfl, rfl, rfl, ?_, hil⟩
        dsimp only
        omega

/-- `validate` against a proof equal up to its `partial` flag returns
`PartialProof`. -/
lemma validate_flag_flip (p q : Proof)
    (h1 : q.leaf_index = p.leaf_index) (h2 : q.path = p.path)
    (h3 : p.partial_flag ≠ q.partial_flag) :
    p.validate q = .error .partialProof := by
  unfold Proof.validate
  rw [if_neg (by simp [h1])]
  rw [if_neg (by simp [h2])]
  rw [if_neg (by simp [h2])]
  rw [if_pos h3]

/-- `validate` of a non-partial local proof against a partial proof whose
path is the local path without its last entry returns `PartialProof`. -/
lemma validate_truncated (p q : Proof)
    (h1 : q.leaf_index = p.leaf_index) (h2 : q.path = p.path.dropLast)
    (h3 : p.partial_flag = false) (h4 : q.partial_flag = true) :
    p.validate q = .error .partialProof := by
  have hql : q.path.length = p.path.length - 1 := by
    rw [h2, List.length_dropLast]
  have htake : p.path.take (min p.path.length q.path.length) =
      q.path.take (min p.path.length q.path.length) := by
    rw [hql]
    have hmin : min p.path.length (p.path.length - 1) = p.path.length - 1 := by
      omega
    rw [hmin, h2, List.dropLast_eq_take, List.take_take]
    congr 1
    omega
  unfold Proof.validate
  rw [if_neg (by simp [h1])]
  rw [if_neg (by simp [h4])]
  rw [if_neg (by simp [htake])]
  rw [if_pos (by simp [h3, h4])]

/-- C7 amended: (1) on a not-fully-built tree, a proof generated by the
tree itself whose `partial` flag is forged to `false` verifies as
`PartialProof`; (2) on a fully built tree, the generated proof with
`partial := true` and its last path entry dropped (path still of length
≥ 2) verifies as `PartialProof`.  (As stated, the claim fails for
arbitrary proofs with `partial = false`: see the counterexample.) -/
theorem c7_partial_proof_detection :
    (∀ (t : MerkleTree) (i : Nat) (p : Proof),
       t.built = false → t.prove i = some (.ok p) →
       t.verify { p with partial_flag := false } =
         some (.error .partialProof)) ∧
    (∀ (t : MerkleTree) (i : Nat) (p : Proof),
       t.built = true → t.prove i = some (.ok p) → 3 ≤ p.path.length →
       t.verify { p with partial_flag := true, path := p.path.dropLast } =
         some (.error .partialProof)) := by
  constructor
  · intro t i p hb hp
    obtain ⟨hq1, hq2, hq3, hq4, hq5⟩ := prove_ok_inv t i p hp
    rw [verify_eq_validate t _ p (by simpa [hq1] using hq5) (by simpa using hq4)
      (by simp [hq1, hq2]) (by simpa [hq1] using hp)]
    rw [validate_flag_flip p _ (by simp) (by simp) (by simp [hq3, hb])]
  · intro t i p hb hp hp3
    obtain ⟨hq1, hq2, hq3, hq4, hq5⟩ := prove_ok_inv t i p hp
    rw [verify_eq_validate t _ p (by simpa [hq1] using hq5)
      (by simp [List.length_dropLast]; omega)
      (by simp [hq1, hq2]) (by simpa [hq1] using hp)]
    rw [validate_truncated p _ (by simp) (by simp) (by simp [hq3, hb]) (by simp)]

/-- A concrete not-fully-built tree: 2 leaves, only leaf 0 and leaf 1 set,
root unset. -/
def partialTree2 : MerkleTree :=
  ⟨[true, true, false], List.replicate 3 (List.replicate 64 0), 2, 2⟩

/-- The proof `partialTree2.prove 0` generates. -/
def proofT2 : Proof :=
  ⟨0, List.replicate 64 0, [some (List.replicate 64 0), none], true⟩

/-- The proof `builtTree3.prove 0` generates. -/
def proofT3 : Proof :=
  ⟨0, List.replicate 64 0,
   [some (List.replicate 64 0), some (List.replicate 64 0), none], false⟩

/-- C7 witness: both halves of the amended theorem applied to concrete
trees and their generated proofs. -/
theorem c7_partial_proof_detection_witness :
    partialTree2.verify { proofT2 with partial_flag := false } =
      some (.error .partialProof) ∧
    builtTree3.verify
        { proofT3 with partial_flag := true, path := proofT3.path.dropLast } =
      some (.error .partialProof) :=
  ⟨c7_partial_proof_detection.1 partialTree2 0 proofT2 (by decide) (by decide),
   c7_partial_proof_detection.2 builtTree3 0 proofT3 (by decide) (by decide) (by decide)⟩

/-- C7 counterexample: on a not-fully-built tree, a forged proof with
`partial = false` and a wrong leaf hash verifies as `InvalidHash`, not
`PartialProof` — so not every `partial = false` proof yields
`PartialProof` as the claim states. -/
theorem c7_counterexample :
    partialTree2.built = false ∧
    partialTree2.verify
        ⟨0, List.replicate 64 1,
         [some (List.replicate 64 0), some (List.replicate 64 0)], false⟩ =
      some (.error .invalidHash) := by decide

end Golem
